import Mathlib

/-!
Verification of the medication reminder scheduler and the login handler of
the Dhanvantri medical-assistant single-page application (src/index.tsx).

The embedding models:
- wall-clock instants (the JS Date values used by the scheduler) as a local
  midnight base plus milliseconds since midnight; `setDate(d+1)` is modelled
  as adding one fixed-length civil day (86400000 ms) — daylight-saving
  irregularities are outside the model;
- the component state of ProfilePage: the in-memory reminder list, the two
  controlled form fields, and the set of pending setTimeout timers together
  with a fresh-handle counter (browser timer handles are unique; we model
  them as consecutive naturals);
- addReminder (src/index.tsx lines 948-970), removeReminder (lines 972-978),
  the load effect (lines 903-933), the persist effect (lines 935-942) and
  LoginPage.handleSubmit (lines 1500-1505).

String times are the values of an HTML time input, always of the shape
"HH:MM"; parsing mirrors medTime.split(":").map(Number) on such values
(JS Number on a non-numeric fragment yields NaN, which is outside the
claims, all of which assume a valid time-of-day).
-/

namespace Dhanvantri

/-- A wall-clock instant: `dayStart` is the epoch-milliseconds value of the
local midnight of the current day, `msOfDay` the milliseconds elapsed since
that midnight. `new Date()` at this instant has `getTime() = dayStart + msOfDay`;
`setHours(h, m, 0, 0)` on it yields `dayStart + (h*60+m)*60000`. -/
structure Instant where
  dayStart : Nat
  msOfDay : Nat
deriving DecidableEq

/-- Milliseconds in one civil day (the amount `setDate(getDate()+1)` adds). -/
def msPerDay : Nat := 86400000

/-- `getTime()` of the instant. -/
def Instant.toMs (t : Instant) : Nat := t.dayStart + t.msOfDay

/-- Milliseconds since midnight of the configured time-of-day `h:m`. -/
def timeOfDayMs (h m : Nat) : Nat := (h * 60 + m) * 60000

/-- The Reminder record of src/index.tsx lines 891-896: id, medication name,
time string ("HH:MM"), and the live setTimeout handle. -/
structure Reminder where
  id : Nat
  name : String
  time : String
  timeoutId : Nat
deriving DecidableEq

/-- The persisted form of a reminder: the record written to localStorage by
the persist effect (line 937), i.e. the Reminder with `timeoutId` stripped by
`({ timeoutId, ...rest }) => rest`. By construction it has exactly the fields
id, name, time. -/
structure StoredReminder where
  id : Nat
  name : String
  time : String
deriving DecidableEq

/-- A pending browser timer: its setTimeout handle and the absolute instant
(epoch ms) at which it fires (`now.getTime() + timeout`). -/
structure Timer where
  handle : Nat
  fireAt : Nat
deriving DecidableEq

/-- Scheduler state: the in-memory reminder list (React state `reminders`),
the pending (not yet fired, not cancelled) timers of the browser event loop,
and the next fresh timer handle. -/
structure SchedState where
  reminders : List Reminder
  pendingTimers : List Timer
  nextHandle : Nat
deriving DecidableEq

/-- Full ProfilePage component state: scheduler state plus the two controlled
form fields `medName` and `medTime`. -/
structure ProfileState where
  sched : SchedState
  medName : String
  medTime : String
deriving DecidableEq

/-- Splitting a character list on a separator, mirroring JS
`String.prototype.split` with a single-character separator. -/
def splitCharsOn (sep : Char) : List Char → List (List Char)
  | [] => [[]]
  | c :: rest =>
      match splitCharsOn sep rest with
      | [] => if c = sep then [[], [c]] else [[c]]
      | g :: gs => if c = sep then [] :: g :: gs else (c :: g) :: gs

/-- Numeric value of a decimal digit character. -/
def digitVal (c : Char) : Nat := c.toNat - 48

/-- Decimal reading of a digit string, mirroring JS `Number` on the "HH" and
"MM" fragments of a valid time-input value (leading zeros allowed). -/
def charsToNat (cs : List Char) : Nat :=
  cs.foldl (fun acc c => acc * 10 + digitVal c) 0

/-- `medTime.split(":").map(Number)` destructured as `[hours, minutes]`
(lines 910 and 952). On shapes other than "H+:M+" (impossible for a
time-input value) the JS code would produce NaN components; the model
returns (0, 0) there, a case no claim exercises. -/
def parseTime (s : String) : Nat × Nat :=
  match (splitCharsOn ':' s.toList).map charsToNat with
  | [h, m] => (h, m)
  | _ => (0, 0)

/-- The next-occurrence computation shared by addReminder (lines 952-957) and
the load effect (lines 910-918): today at `h:m` if that instant is not before
`now`, otherwise the same time tomorrow. -/
def nextOccurrenceMs (h m : Nat) (now : Instant) : Nat :=
  let target := now.dayStart + timeOfDayMs h m
  if target < now.toMs then target + msPerDay else target

/-- The setTimeout delay `reminderDate.getTime() - now.getTime()` (lines 920
and 959), as the JS number subtraction (never negative after the
tomorrow-adjustment, but stated over Int as in the source). -/
def timeoutDelay (h m : Nat) (now : Instant) : Int :=
  (nextOccurrenceMs h m now : Int) - (now.toMs : Int)

/-- addReminder (src/index.tsx lines 948-970). Rejects when either controlled
field is the empty string (JS falsy for strings); otherwise parses the time,
schedules a one-shot timer for the next occurrence, appends the new reminder
(id = Date.now() = the current instant in epoch ms) and clears both fields. -/
def addReminder (now : Instant) (ps : ProfileState) : ProfileState :=
  if ps.medName = "" ∨ ps.medTime = "" then ps
  else
    let hm := parseTime ps.medTime
    let fireAt := nextOccurrenceMs hm.1 hm.2 now
    let timeoutId := ps.sched.nextHandle
    { sched :=
        { reminders := ps.sched.reminders ++
            [{ id := now.toMs, name := ps.medName, time := ps.medTime,
               timeoutId := timeoutId }]
          pendingTimers := ps.sched.pendingTimers ++
            [{ handle := timeoutId, fireAt := fireAt }]
          nextHandle := ps.sched.nextHandle + 1 }
      medName := ""
      medTime := "" }

/-- removeReminder (src/index.tsx lines 972-978): find the reminder with the
given id, clearTimeout its handle if found (cancelling the pending timer with
that handle, a no-op when it already fired), and filter the reminder out of
the collection. -/
def removeReminder (rid : Nat) (s : SchedState) : SchedState :=
  let cleared :=
    match s.reminders.find? (fun r => r.id == rid) with
    | some r => s.pendingTimers.filter (fun t => t.handle != r.timeoutId)
    | none => s.pendingTimers
  { reminders := s.reminders.filter (fun r => r.id != rid)
    pendingTimers := cleared
    nextHandle := s.nextHandle }

/-- The persist effect (src/index.tsx lines 935-942):
`reminders.map(({ timeoutId, ...rest }) => rest)` — the durable record list,
each entry holding exactly id, name, time. -/
def persistReminders (rs : List Reminder) : List StoredReminder :=
  rs.map (fun r => { id := r.id, name := r.name, time := r.time })

/-- The per-entry work of the load effect (src/index.tsx lines 909-927):
each stored record is rescheduled from its stored time-of-day relative to the
load instant, receiving a fresh setTimeout handle; handles are allocated
consecutively from `h`. Returns the rebuilt reminders and the new timers. -/
def scheduleStored (now : Instant) (h : Nat) :
    List StoredReminder → List Reminder × List Timer
  | [] => ([], [])
  | r :: rest =>
      let hm := parseTime r.time
      let fireAt := nextOccurrenceMs hm.1 hm.2 now
      let tail := scheduleStored now (h + 1) rest
      ({ id := r.id, name := r.name, time := r.time, timeoutId := h } :: tail.1,
       { handle := h, fireAt := fireAt } :: tail.2)

/-- The load effect (src/index.tsx lines 903-933) applied to a parsed stored
list: rebuilds the in-memory collection from the stored records (replacing
the current one via setReminders), scheduling one fresh timer per record. -/
def loadSched (stored : List StoredReminder) (now : Instant) (s : SchedState) :
    SchedState :=
  let built := scheduleStored now s.nextHandle stored
  { reminders := built.1
    pendingTimers := s.pendingTimers ++ built.2
    nextHandle := s.nextHandle + stored.length }

/-- A pending timer firing: the browser removes it from the pending set and
runs its callback, which (lines 921-925 and 960-964) only raises an alert and
speaks — it neither mutates the reminder collection nor re-arms a timer. -/
def fireTimer (h : Nat) (s : SchedState) : SchedState :=
  { s with pendingTimers := s.pendingTimers.filter (fun t => t.handle != h) }

/-- LoginPage.handleSubmit (src/index.tsx lines 1500-1505): calls
onLogin(username.trim()) exactly when the trimmed username is non-empty
(JS string truthiness); the password state is never read. Result: the
identity passed to onLogin, or none when no login happens. -/
def handleLoginSubmit (username _password : String) : Option String :=
  if username.trim = "" then none else some username.trim

/-- The events of the reminder subsystem: an add-form submission with the
fields set to the given values, a delete click, the mount-time load of a
persisted list, and a pending timer firing. -/
inductive Event where
  | add (name time : String) (now : Instant)
  | remove (rid : Nat)
  | load (stored : List StoredReminder) (now : Instant)
  | fire (h : Nat)
deriving DecidableEq

/-- One event applied to the scheduler state. An add submission acts through
addReminder on the component state with the form fields set to the submitted
values. -/
def step (e : Event) (s : SchedState) : SchedState :=
  match e with
  | .add name time now => (addReminder now ⟨s, name, time⟩).sched
  | .remove rid => removeReminder rid s
  | .load stored now => loadSched stored now s
  | .fire h => fireTimer h s

/-- Running a sequence of events from a state. -/
def run (evs : List Event) (s : SchedState) : SchedState :=
  evs.foldl (fun s e => step e s) s

/-- The initial ProfilePage scheduler state: no reminders, no timers. -/
def initState : SchedState :=
  { reminders := [], pendingTimers := [], nextHandle := 0 }

/-- Whether an event is a timer firing. -/
def Event.isFire : Event → Bool
  | .fire _ => true
  | _ => false

/-- The number of pending timers whose handle is `tid` — the timers
associated with a reminder whose `timeoutId` is `tid`. -/
def timersFor (tid : Nat) (ts : List Timer) : Nat :=
  (ts.map Timer.handle).count tid

/-- The spec guarantee under examination in C2: every reminder of the
in-memory collection has exactly one pending timer. -/
def ExactlyOneTimer (s : SchedState) : Prop :=
  ∀ r ∈ s.reminders, timersFor r.timeoutId s.pendingTimers = 1

instance (s : SchedState) : Decidable (ExactlyOneTimer s) := by
  unfold ExactlyOneTimer; infer_instance

/-- Well-formedness of a scheduler state: every timeout handle held by a
reminder or a pending timer was allocated below the fresh-handle counter, and
handles are not duplicated (browser timer handles are unique). -/
def Good (s : SchedState) : Prop :=
  (∀ r ∈ s.reminders, r.timeoutId < s.nextHandle) ∧
  (∀ t ∈ s.pendingTimers, t.handle < s.nextHandle) ∧
  (s.reminders.map Reminder.timeoutId).Nodup ∧
  (s.pendingTimers.map Timer.handle).Nodup

/-! ### Helper lemmas about timersFor -/

theorem timersFor_append (tid : Nat) (ts₁ ts₂ : List Timer) :
    timersFor tid (ts₁ ++ ts₂) = timersFor tid ts₁ + timersFor tid ts₂ := by
  simp [timersFor, List.count_append]

theorem timersFor_singleton (tid : Nat) (t : Timer) :
    timersFor tid [t] = if t.handle = tid then 1 else 0 := by
  simp [timersFor, List.count_singleton]

theorem timersFor_eq_zero {tid : Nat} {ts : List Timer}
    (hb : ∀ t ∈ ts, t.handle ≠ tid) : timersFor tid ts = 0 := by
  rw [timersFor, List.count_eq_zero]
  intro hmem
  rcases List.mem_map.1 hmem with ⟨t, ht, hth⟩
  exact hb t ht hth

theorem timersFor_cons (tid : Nat) (t : Timer) (ts : List Timer) :
    timersFor tid (t :: ts) = timersFor tid ts + (if t.handle = tid then 1 else 0) := by
  simp [timersFor, List.count_cons]

theorem timersFor_filter_ne {tid x : Nat} (ts : List Timer) (hne : tid ≠ x) :
    timersFor tid (ts.filter (fun t => t.handle != x)) = timersFor tid ts := by
  induction ts with
  | nil => rfl
  | cons t rest ih =>
      by_cases hx : t.handle = x
      · rw [List.filter_cons_of_neg (by simp [hx]), ih, timersFor_cons,
          if_neg (by omega), Nat.add_zero]
      · rw [List.filter_cons_of_pos (by simp [hx]), timersFor_cons, ih, timersFor_cons]

theorem timersFor_filter_self (x : Nat) (ts : List Timer) :
    timersFor x (ts.filter (fun t => t.handle != x)) = 0 := by
  apply timersFor_eq_zero
  intro t ht
  have := (List.mem_filter.1 ht).2
  simpa using this

theorem timersFor_le_one_of_nodup {ts : List Timer}
    (hnd : (ts.map Timer.handle).Nodup) (tid : Nat) : timersFor tid ts ≤ 1 :=
  List.nodup_iff_count_le_one.1 hnd tid

/-! ### Helper lemmas about scheduleStored -/

theorem scheduleStored_fst_map_triple (now : Instant) (h : Nat)
    (l : List StoredReminder) :
    (scheduleStored now h l).1.map (fun r => (r.id, r.name, r.time))
      = l.map (fun r => (r.id, r.name, r.time)) := by
  induction l generalizing h with
  | nil => rfl
  | cons r rest ih => simp [scheduleStored, ih]

theorem scheduleStored_fst_map_timeoutId (now : Instant) (h : Nat)
    (l : List StoredReminder) :
    (scheduleStored now h l).1.map Reminder.timeoutId
      = (List.range l.length).map (fun i => h + i) := by
  induction l generalizing h with
  | nil => rfl
  | cons r rest ih =>
      simp only [scheduleStored, List.map_cons, ih, List.length_cons,
        List.range_succ_eq_map, List.map_map, Function.comp_def]
      rw [show (fun x : Nat => h + Nat.succ x) = (fun i : Nat => h + 1 + i) from
        funext fun i => by omega]
      simp

theorem scheduleStored_snd_map_handle (now : Instant) (h : Nat)
    (l : List StoredReminder) :
    (scheduleStored now h l).2.map Timer.handle
      = (List.range l.length).map (fun i => h + i) := by
  induction l generalizing h with
  | nil => rfl
  | cons r rest ih =>
      simp only [scheduleStored, List.map_cons, ih, List.length_cons,
        List.range_succ_eq_map, List.map_map, Function.comp_def]
      rw [show (fun x : Nat => h + Nat.succ x) = (fun i : Nat => h + 1 + i) from
        funext fun i => by omega]
      simp

theorem scheduleStored_snd_map_fireAt (now : Instant) (h : Nat)
    (l : List StoredReminder) :
    (scheduleStored now h l).2.map Timer.fireAt
      = l.map (fun r =>
          nextOccurrenceMs (parseTime r.time).1 (parseTime r.time).2 now) := by
  induction l generalizing h with
  | nil => rfl
  | cons r rest ih => simp [scheduleStored, ih]

theorem scheduleStored_fst_length (now : Instant) (h : Nat)
    (l : List StoredReminder) :
    (scheduleStored now h l).1.length = l.length := by
  have := congrArg List.length (scheduleStored_fst_map_triple now h l)
  simpa using this

theorem scheduleStored_snd_length (now : Instant) (h : Nat)
    (l : List StoredReminder) :
    (scheduleStored now h l).2.length = l.length := by
  have := congrArg List.length (scheduleStored_snd_map_fireAt now h l)
  simpa using this

theorem scheduleStored_fst_timeoutId_bounds (now : Instant) (h : Nat)
    (l : List StoredReminder) {r : Reminder}
    (hr : r ∈ (scheduleStored now h l).1) :
    h ≤ r.timeoutId ∧ r.timeoutId < h + l.length := by
  have hmem : r.timeoutId ∈ (scheduleStored now h l).1.map Reminder.timeoutId :=
    List.mem_map_of_mem _ hr
  rw [scheduleStored_fst_map_timeoutId] at hmem
  rcases List.mem_map.1 hmem with ⟨i, hi, hie⟩
  rw [List.mem_range] at hi
  omega

theorem scheduleStored_snd_handle_bounds (now : Instant) (h : Nat)
    (l : List StoredReminder) {t : Timer}
    (ht : t ∈ (scheduleStored now h l).2) :
    h ≤ t.handle ∧ t.handle < h + l.length := by
  have hmem : t.handle ∈ (scheduleStored now h l).2.map Timer.handle :=
    List.mem_map_of_mem _ ht
  rw [scheduleStored_snd_map_handle] at hmem
  rcases List.mem_map.1 hmem with ⟨i, hi, hie⟩
  rw [List.mem_range] at hi
  omega

theorem nodup_range_map_add (h n : Nat) :
    ((List.range n).map (fun i => h + i)).Nodup :=
  List.Nodup.map (fun a b hab => by omega) (List.nodup_range n)

theorem scheduleStored_timersFor_eq_one (now : Instant) (h : Nat)
    (l : List StoredReminder) {r : Reminder}
    (hr : r ∈ (scheduleStored now h l).1) :
    timersFor r.timeoutId (scheduleStored now h l).2 = 1 := by
  have hmem : r.timeoutId ∈ (scheduleStored now h l).1.map Reminder.timeoutId :=
    List.mem_map_of_mem _ hr
  rw [scheduleStored_fst_map_timeoutId] at hmem
  rw [timersFor, scheduleStored_snd_map_handle]
  exact List.count_eq_one_of_mem (nodup_range_map_add h l.length) hmem

theorem nodup_append_singleton {α : Type} {l : List α} {a : α}
    (hnd : l.Nodup) (ha : a ∉ l) : (l ++ [a]).Nodup := by
  rw [List.nodup_append]
  refine ⟨hnd, List.nodup_singleton a, ?_⟩
  intro x hx hxa
  rw [List.mem_singleton] at hxa
  subst hxa
  exact ha hx

theorem nodup_map_filter {α β : Type} (f : α → β) (p : α → Bool)
    {l : List α} (h : (l.map f).Nodup) : ((l.filter p).map f).Nodup :=
  h.sublist ((List.filter_sublist l).map f)

/-! ### Preservation of well-formedness along the event machine -/

theorem good_initState : Good initState := by
  refine ⟨?_, ?_, ?_, ?_⟩ <;> simp [initState]

theorem good_addReminder (now : Instant) (ps : ProfileState)
    (hg : Good ps.sched) : Good (addReminder now ps).sched := by
  obtain ⟨hb1, hb2, hn1, hn2⟩ := hg
  by_cases hguard : ps.medName = "" ∨ ps.medTime = ""
  · simp only [addReminder, if_pos hguard]
    exact ⟨hb1, hb2, hn1, hn2⟩
  · simp only [addReminder, if_neg hguard]
    refine ⟨?_, ?_, ?_, ?_⟩
    · intro r hr
      rcases List.mem_append.1 hr with hr | hr
      · exact Nat.lt_succ_of_lt (hb1 r hr)
      · rw [List.mem_singleton] at hr
        subst hr
        exact Nat.lt_succ_self _
    · intro t ht
      rcases List.mem_append.1 ht with ht | ht
      · exact Nat.lt_succ_of_lt (hb2 t ht)
      · rw [List.mem_singleton] at ht
        subst ht
        exact Nat.lt_succ_self _
    · rw [List.map_append, List.map_singleton]
      apply nodup_append_singleton hn1
      intro hmem
      rcases List.mem_map.1 hmem with ⟨r, hr, hre⟩
      have h1 := hb1 r hr
      rw [hre] at h1
      exact Nat.lt_irrefl _ h1
    · rw [List.map_append, List.map_singleton]
      apply nodup_append_singleton hn2
      intro hmem
      rcases List.mem_map.1 hmem with ⟨t, ht, hte⟩
      have h1 := hb2 t ht
      rw [hte] at h1
      exact Nat.lt_irrefl _ h1

theorem good_removeReminder (rid : Nat) (s : SchedState) (hg : Good s) :
    Good (removeReminder rid s) := by
  obtain ⟨hb1, hb2, hn1, hn2⟩ := hg
  cases hfind : s.reminders.find? (fun r => r.id == rid) with
  | none =>
      simp only [removeReminder, hfind]
      exact ⟨fun r hr => hb1 r (List.mem_of_mem_filter hr), hb2,
        nodup_map_filter _ _ hn1, hn2⟩
  | some rf =>
      simp only [removeReminder, hfind]
      exact ⟨fun r hr => hb1 r (List.mem_of_mem_filter hr),
        fun t ht => hb2 t (List.mem_of_mem_filter ht),
        nodup_map_filter _ _ hn1, nodup_map_filter _ _ hn2⟩

theorem good_loadSched (stored : List StoredReminder) (now : Instant)
    (s : SchedState) (hg : Good s) : Good (loadSched stored now s) := by
  obtain ⟨hb1, hb2, hn1, hn2⟩ := hg
  simp only [loadSched]
  refine ⟨?_, ?_, ?_, ?_⟩
  · intro r hr
    have := scheduleStored_fst_timeoutId_bounds now s.nextHandle stored hr
    show r.timeoutId < s.nextHandle + stored.length
    omega
  · intro t ht
    show t.handle < s.nextHandle + stored.length
    rcases List.mem_append.1 ht with ht | ht
    · have := hb2 t ht
      omega
    · have := scheduleStored_snd_handle_bounds now s.nextHandle stored ht
      omega
  · rw [scheduleStored_fst_map_timeoutId]
    exact nodup_range_map_add _ _
  · rw [List.map_append, scheduleStored_snd_map_handle, List.nodup_append]
    refine ⟨hn2, nodup_range_map_add _ _, ?_⟩
    intro x hx1 hx2
    rcases List.mem_map.1 hx1 with ⟨t, ht, hte⟩
    rcases List.mem_map.1 hx2 with ⟨i, hi, hie⟩
    have := hb2 t ht
    omega

theorem good_fireTimer (h : Nat) (s : SchedState) (hg : Good s) :
    Good (fireTimer h s) := by
  obtain ⟨hb1, hb2, hn1, hn2⟩ := hg
  exact ⟨hb1, fun t ht => hb2 t (List.mem_of_mem_filter ht),
    hn1, nodup_map_filter _ _ hn2⟩

theorem good_step (e : Event) (s : SchedState) (hg : Good s) :
    Good (step e s) := by
  cases e with
  | add name time now => exact good_addReminder now ⟨s, name, time⟩ hg
  | remove rid => exact good_removeReminder rid s hg
  | load stored now => exact good_loadSched stored now s hg
  | fire h => exact good_fireTimer h s hg

theorem good_run (evs : List Event) (s : SchedState) (hg : Good s) :
    Good (run evs s) := by
  induction evs generalizing s with
  | nil => exact hg
  | cons e rest ih => exact ih (step e s) (good_step e s hg)

/-! ### Preservation of the one-timer-per-reminder property (no firing) -/

theorem exactlyOne_addReminder (now : Instant) (ps : ProfileState)
    (hg : Good ps.sched) (he : ExactlyOneTimer ps.sched) :
    ExactlyOneTimer (addReminder now ps).sched := by
  obtain ⟨hb1, hb2, hn1, hn2⟩ := hg
  by_cases hguard : ps.medName = "" ∨ ps.medTime = ""
  · simp only [addReminder, if_pos hguard]
    exact he
  · simp only [addReminder, if_neg hguard]
    intro r hr
    rw [timersFor_append, timersFor_singleton]
    rcases List.mem_append.1 hr with hr | hr
    · have hlt := hb1 r hr
      rw [if_neg (by show ¬ ps.sched.nextHandle = r.timeoutId; omega), he r hr]
    · rw [List.mem_singleton] at hr
      subst hr
      rw [timersFor_eq_zero (fun t ht => by
        have := hb2 t ht
        show t.handle ≠ ps.sched.nextHandle
        omega), if_pos rfl]

theorem exactlyOne_removeReminder (rid : Nat) (s : SchedState)
    (hg : Good s) (he : ExactlyOneTimer s) :
    ExactlyOneTimer (removeReminder rid s) := by
  obtain ⟨hb1, hb2, hn1, hn2⟩ := hg
  cases hfind : s.reminders.find? (fun r => r.id == rid) with
  | none =>
      simp only [removeReminder, hfind]
      intro r hr
      exact he r (List.mem_of_mem_filter hr)
  | some rf =>
      simp only [removeReminder, hfind]
      intro r hr
      have hrmem := List.mem_of_mem_filter hr
      have hrne : r.id ≠ rid := by
        have := (List.mem_filter.1 hr).2
        simpa using this
      have hfid : rf.id = rid := by
        have := List.find?_some hfind
        simpa using this
      have hfmem : rf ∈ s.reminders := List.mem_of_find?_eq_some hfind
      have hne : r ≠ rf := fun hcon => hrne (hcon ▸ hfid)
      have htne : r.timeoutId ≠ rf.timeoutId := by
        intro hcon
        exact hne (List.inj_on_of_nodup_map hn1 hrmem hfmem hcon)
      rw [timersFor_filter_ne _ htne]
      exact he r hrmem

theorem exactlyOne_loadSched (stored : List StoredReminder) (now : Instant)
    (s : SchedState) (hg : Good s) :
    ExactlyOneTimer (loadSched stored now s) := by
  obtain ⟨hb1, hb2, hn1, hn2⟩ := hg
  simp only [loadSched]
  intro r hr
  rw [timersFor_append]
  have h0 : timersFor r.timeoutId s.pendingTimers = 0 := by
    apply timersFor_eq_zero
    intro t ht
    have h1 := hb2 t ht
    have h2 := (scheduleStored_fst_timeoutId_bounds now s.nextHandle stored hr).1
    omega
  rw [h0, scheduleStored_timersFor_eq_one now s.nextHandle stored hr]

theorem exactlyOne_step (e : Event) (s : SchedState) (hg : Good s)
    (he : ExactlyOneTimer s) (hnf : e.isFire = false) :
    ExactlyOneTimer (step e s) := by
  cases e with
  | add name time now => exact exactlyOne_addReminder now ⟨s, name, time⟩ hg he
  | remove rid => exact exactlyOne_removeReminder rid s hg he
  | load stored now => exact exactlyOne_loadSched stored now s hg
  | fire h => exact absurd hnf (by simp [Event.isFire])

theorem exactlyOne_run (evs : List Event) (s : SchedState) (hg : Good s)
    (he : ExactlyOneTimer s) (hnf : ∀ e ∈ evs, e.isFire = false) :
    ExactlyOneTimer (run evs s) := by
  induction evs generalizing s with
  | nil => exact he
  | cons e rest ih =>
      exact ih (step e s) (good_step e s hg)
        (exactlyOne_step e s hg he (hnf e (List.mem_cons_self e rest)))
        (fun e1 he1 => hnf e1 (List.mem_cons_of_mem e he1))

/-! ### The claims -/

/-- C1: for every addReminder call with a non-empty name and a valid
time-of-day, exactly one new one-shot timer is scheduled; its fire instant is
today at the configured hour:minute when that time has not yet passed today
(relative to the current wall-clock instant), and tomorrow at that
hour:minute when it has already passed. -/
theorem claim_C1 (ps : ProfileState) (now : Instant) (h m : Nat)
    (hname : ps.medName ≠ "") (htime : ps.medTime ≠ "")
    (hparse : parseTime ps.medTime = (h, m)) :
    (addReminder now ps).sched.pendingTimers =
      ps.sched.pendingTimers ++
        [{ handle := ps.sched.nextHandle,
           fireAt :=
             if timeOfDayMs h m < now.msOfDay then
               now.dayStart + msPerDay + timeOfDayMs h m
             else now.dayStart + timeOfDayMs h m }] := by
  have hguard : ¬ (ps.medName = "" ∨ ps.medTime = "") := by
    push_neg
    exact ⟨hname, htime⟩
  have hocc : nextOccurrenceMs h m now =
      (if timeOfDayMs h m < now.msOfDay then
        now.dayStart + msPerDay + timeOfDayMs h m
       else now.dayStart + timeOfDayMs h m) := by
    simp only [nextOccurrenceMs, Instant.toMs]
    by_cases hc : timeOfDayMs h m < now.msOfDay
    · rw [if_pos (show now.dayStart + timeOfDayMs h m <
          now.dayStart + now.msOfDay by omega), if_pos hc]
      omega
    · rw [if_neg (show ¬ (now.dayStart + timeOfDayMs h m <
          now.dayStart + now.msOfDay) by omega), if_neg hc]
  simp only [addReminder, if_neg hguard, hparse, hocc]

theorem claim_C1_witness :
    ((⟨⟨[], [], 0⟩, "Aspirin", "09:00"⟩ : ProfileState).medName ≠ "" ∧
     (⟨⟨[], [], 0⟩, "Aspirin", "09:00"⟩ : ProfileState).medTime ≠ "" ∧
     parseTime (⟨⟨[], [], 0⟩, "Aspirin", "09:00"⟩ : ProfileState).medTime
       = (9, 0)) ∧
    (addReminder ⟨0, 28800000⟩
        ⟨⟨[], [], 0⟩, "Aspirin", "09:00"⟩).sched.pendingTimers =
      (⟨⟨[], [], 0⟩, "Aspirin", "09:00"⟩ : ProfileState).sched.pendingTimers ++
        [{ handle :=
             (⟨⟨[], [], 0⟩, "Aspirin", "09:00"⟩ : ProfileState).sched.nextHandle,
           fireAt :=
             if timeOfDayMs 9 0 < (⟨0, 28800000⟩ : Instant).msOfDay then
               (⟨0, 28800000⟩ : Instant).dayStart + msPerDay + timeOfDayMs 9 0
             else (⟨0, 28800000⟩ : Instant).dayStart + timeOfDayMs 9 0 }] :=
  ⟨⟨by decide, by decide, by decide⟩,
   claim_C1 ⟨⟨[], [], 0⟩, "Aspirin", "09:00"⟩ ⟨0, 28800000⟩ 9 0
     (by decide) (by decide) (by decide)⟩

/-- C2, as stated, is false on the code: after a timer fires, its reminder is
still in the in-memory collection but the timer callback (lines 960-964) does
not re-arm, so that reminder has zero pending timers. Concretely: add
"Aspirin" at 09:00 when the current time is 08:00, then let the timer fire —
a reachable state in which the invariant fails. -/
theorem claim_C2_counterexample :
    ¬ (∀ evs : List Event, ExactlyOneTimer (run evs initState)) := by
  intro hall
  exact absurd
    (hall [Event.add "Aspirin" "09:00" ⟨0, 28800000⟩, Event.fire 0])
    (by decide)

/-- C2 (amended): in every state reachable by any sequence of addReminder,
removeReminder, load and timer-fire events, each reminder of the in-memory
collection has AT MOST one pending timer; and in every state reachable
without any timer-fire event, each reminder has exactly one pending timer. -/
theorem claim_C2_amended (evs : List Event) :
    (∀ r ∈ (run evs initState).reminders,
        timersFor r.timeoutId (run evs initState).pendingTimers ≤ 1) ∧
    ((∀ e ∈ evs, e.isFire = false) → ExactlyOneTimer (run evs initState)) := by
  obtain ⟨hb1, hb2, hn1, hn2⟩ := good_run evs initState good_initState
  constructor
  · intro r hr
    exact timersFor_le_one_of_nodup hn2 r.timeoutId
  · intro hnf
    exact exactlyOne_run evs initState good_initState
      (fun r hr => absurd hr (List.not_mem_nil r)) hnf

theorem claim_C2_amended_witness :
    (∀ e ∈ [Event.add "Aspirin" "09:00" ⟨0, 28800000⟩], e.isFire = false) ∧
    ExactlyOneTimer (run [Event.add "Aspirin" "09:00" ⟨0, 28800000⟩] initState) :=
  ⟨by decide,
   (claim_C2_amended [Event.add "Aspirin" "09:00" ⟨0, 28800000⟩]).2 (by decide)⟩

/-- C3: round-trip. Persisting a reminder list (stripping the timer handle)
and reloading it yields reminders with the same id, name and time, in the
same order, and with freshly allocated timer handles (consecutive from the
fresh-handle counter) in place of the old ones. -/
theorem claim_C3 (rs : List Reminder) (now : Instant) (s : SchedState) :
    (loadSched (persistReminders rs) now s).reminders.map
        (fun r => (r.id, r.name, r.time))
      = rs.map (fun r => (r.id, r.name, r.time)) ∧
    (loadSched (persistReminders rs) now s).reminders.map Reminder.timeoutId
      = (List.range rs.length).map (fun i => s.nextHandle + i) := by
  constructor
  · simp only [loadSched]
    rw [scheduleStored_fst_map_triple]
    simp only [persistReminders, List.map_map]
    rfl
  · simp only [loadSched]
    rw [scheduleStored_fst_map_timeoutId]
    simp [persistReminders]

/-- C4: loading a persisted list of N reminders schedules exactly N timers,
and each fire instant is computed by the next-occurrence rule from the stored
time-of-day relative to the load instant `now` — the computation takes no
other instant as input, in particular not the creation instant (which is not
even part of the persisted record). -/
theorem claim_C4 (stored : List StoredReminder) (now : Instant)
    (s : SchedState) :
    (loadSched stored now s).pendingTimers.length
      = s.pendingTimers.length + stored.length ∧
    (loadSched stored now s).pendingTimers.map Timer.fireAt
      = s.pendingTimers.map Timer.fireAt
        ++ stored.map (fun r =>
            nextOccurrenceMs (parseTime r.time).1 (parseTime r.time).2 now) := by
  constructor
  · simp only [loadSched]
    rw [List.length_append, scheduleStored_snd_length]
  · simp only [loadSched]
    rw [List.map_append, scheduleStored_snd_map_fireAt]

/-- C5: removing a present id cancels the pending timer of the reminder that
carried it (no pending timer with that handle remains, whether or not it had
already fired) and removes every entry with that id from the collection. The
id-uniqueness hypothesis reflects that ids are creation timestamps
(Date.now()), distinct across adds. -/
theorem claim_C5 (s : SchedState) (rid : Nat) (r : Reminder)
    (hnd : (s.reminders.map Reminder.id).Nodup)
    (hr : r ∈ s.reminders) (hid : r.id = rid) :
    timersFor r.timeoutId (removeReminder rid s).pendingTimers = 0 ∧
    ∀ r2 ∈ (removeReminder rid s).reminders, r2.id ≠ rid := by
  cases hfind : s.reminders.find? (fun x => x.id == rid) with
  | none =>
      rw [List.find?_eq_none] at hfind
      exact absurd (show ((fun x : Reminder => x.id == rid) r) = true
        by simp [hid]) (hfind r hr)
  | some rf =>
      have hfid : rf.id = rid := by simpa using List.find?_some hfind
      have hfmem := List.mem_of_find?_eq_some hfind
      have hrf : rf = r :=
        List.inj_on_of_nodup_map hnd hfmem hr (by rw [hfid, hid])
      constructor
      · simp only [removeReminder, hfind, hrf]
        exact timersFor_filter_self r.timeoutId s.pendingTimers
      · intro r2 hr2
        simp only [removeReminder] at hr2
        have := (List.mem_filter.1 hr2).2
        simpa using this

theorem claim_C5_witness :
    ((([⟨100, "A", "09:00", 0⟩] : List Reminder).map Reminder.id).Nodup ∧
     (⟨100, "A", "09:00", 0⟩ : Reminder) ∈
       (⟨[⟨100, "A", "09:00", 0⟩], [⟨0, 32400000⟩], 1⟩ : SchedState).reminders ∧
     (⟨100, "A", "09:00", 0⟩ : Reminder).id = 100) ∧
    (timersFor 0 (removeReminder 100
        ⟨[⟨100, "A", "09:00", 0⟩], [⟨0, 32400000⟩], 1⟩).pendingTimers = 0 ∧
     ∀ r2 ∈ (removeReminder 100
        ⟨[⟨100, "A", "09:00", 0⟩], [⟨0, 32400000⟩], 1⟩).reminders,
       r2.id ≠ 100) :=
  ⟨⟨by decide, by decide, rfl⟩,
   claim_C5 ⟨[⟨100, "A", "09:00", 0⟩], [⟨0, 32400000⟩], 1⟩ 100
     ⟨100, "A", "09:00", 0⟩ (by decide) (by decide) rfl⟩

/-- C6: removing an id that is not in the collection is a no-op — the state
(reminders, in order, and pending timers) is returned unchanged; the model is
a total function, so no error is raised. -/
theorem claim_C6 (s : SchedState) (rid : Nat)
    (habs : ∀ r ∈ s.reminders, r.id ≠ rid) :
    removeReminder rid s = s := by
  have hfind : s.reminders.find? (fun r => r.id == rid) = none := by
    rw [List.find?_eq_none]
    intro r hr
    simpa using habs r hr
  have hfilter : s.reminders.filter (fun r => r.id != rid) = s.reminders := by
    rw [List.filter_eq_self]
    intro r hr
    simpa using habs r hr
  simp only [removeReminder, hfind, hfilter]

theorem claim_C6_witness :
    (∀ r ∈ (⟨[⟨100, "A", "09:00", 0⟩], [⟨0, 5⟩], 1⟩ : SchedState).reminders,
        r.id ≠ 7) ∧
    removeReminder 7 ⟨[⟨100, "A", "09:00", 0⟩], [⟨0, 5⟩], 1⟩
      = ⟨[⟨100, "A", "09:00", 0⟩], [⟨0, 5⟩], 1⟩ :=
  ⟨by decide,
   claim_C6 ⟨[⟨100, "A", "09:00", 0⟩], [⟨0, 5⟩], 1⟩ 7 (by decide)⟩

/-- C7: a submission of the add-reminder form with an empty medication name
or an empty time field is rejected before any scheduling: the whole component
state — reminder collection, pending timers, and both input fields — is
returned unchanged. -/
theorem claim_C7 (ps : ProfileState) (now : Instant)
    (hempty : ps.medName = "" ∨ ps.medTime = "") :
    addReminder now ps = ps := by
  simp only [addReminder, if_pos hempty]

theorem claim_C7_witness :
    ((⟨⟨[], [], 0⟩, "", "09:00"⟩ : ProfileState).medName = "" ∨
     (⟨⟨[], [], 0⟩, "", "09:00"⟩ : ProfileState).medTime = "") ∧
    addReminder ⟨0, 0⟩ ⟨⟨[], [], 0⟩, "", "09:00"⟩
      = (⟨⟨[], [], 0⟩, "", "09:00"⟩ : ProfileState) :=
  ⟨Or.inl rfl, claim_C7 ⟨⟨[], [], 0⟩, "", "09:00"⟩ ⟨0, 0⟩ (Or.inl rfl)⟩

/-- C8: the durable record written for a reminder holds exactly its id, name
and time, and never the live timer handle: the persisted list is unchanged
under arbitrary modification of every timeoutId, and its fields project back
to exactly the id, name and time columns of the collection. -/
theorem claim_C8 (rs : List Reminder) (f : Reminder → Nat) :
    persistReminders (rs.map (fun r => { r with timeoutId := f r }))
      = persistReminders rs ∧
    (persistReminders rs).map StoredReminder.id = rs.map Reminder.id ∧
    (persistReminders rs).map StoredReminder.name = rs.map Reminder.name ∧
    (persistReminders rs).map StoredReminder.time = rs.map Reminder.time := by
  refine ⟨?_, ?_, ?_, ?_⟩ <;> simp only [persistReminders, List.map_map] <;> rfl

/-- C9: boundary of the next-occurrence rule. When the wall-clock instant has
exactly the configured hour:minute (seconds and milliseconds zero), the
strict comparison of the source is false, so the occurrence is today at that
hour:minute and the scheduled delay is exactly zero — not tomorrow. -/
theorem claim_C9 (h m : Nat) (now : Instant)
    (heq : now.msOfDay = timeOfDayMs h m) :
    nextOccurrenceMs h m now = now.dayStart + timeOfDayMs h m ∧
    timeoutDelay h m now = 0 := by
  have h1 : nextOccurrenceMs h m now = now.dayStart + timeOfDayMs h m := by
    simp only [nextOccurrenceMs, Instant.toMs]
    rw [if_neg (by omega)]
  refine ⟨h1, ?_⟩
  simp only [timeoutDelay, h1, Instant.toMs, heq]
  omega

theorem claim_C9_witness :
    (⟨0, 32400000⟩ : Instant).msOfDay = timeOfDayMs 9 0 ∧
    (nextOccurrenceMs 9 0 ⟨0, 32400000⟩
        = (⟨0, 32400000⟩ : Instant).dayStart + timeOfDayMs 9 0 ∧
     timeoutDelay 9 0 ⟨0, 32400000⟩ = 0) :=
  ⟨by decide, claim_C9 9 0 ⟨0, 32400000⟩ (by decide)⟩

/-- C10: noninterference of the login handler with respect to the password —
two submissions with the same username and any two passwords give identical
outcomes; the outcome is a successful login exactly when the trimmed username
is non-empty, and the logged-in identity is the trimmed username. -/
theorem claim_C10 (username p₁ p₂ : String) :
    handleLoginSubmit username p₁ = handleLoginSubmit username p₂ ∧
    handleLoginSubmit username p₁
      = (if username.trim = "" then none else some username.trim) :=
  ⟨rfl, rfl⟩

end Dhanvantri
